import Mathlib

/-!
Verification of the consultation template rendering system
(`ConsultationTemplateRenderer`, Vietnamese-aware placeholder replacement).

The TypeScript source works on JavaScript strings with two global regex
patterns:

  PLACEHOLDER_PATTERN            = /\x7b([^\x7d]+)\x7d/g
  VIETNAMESE_PLACEHOLDER_PATTERN = /\x7b\x7b([^\x7d]+)\x7d\x7d/g

We embed strings as `String` / `List Char` and model each regex operation by
a character-level scan with the exact semantics of the JavaScript regex
engine on these (backtracking-free) patterns: the engine tries to match at
index 0, 1, ... ; `[^\x7d]+` is a maximal nonempty run of characters other
than the closing brace (greedy matching cannot backtrack here, because
shortening the run would put a non-brace character where the pattern needs
a brace); on a successful match the scan resumes right after the match, on
a failure it advances one character.  `String.prototype.replace` with a
global regex replaces every such match, and the `exec` loops in
`extractPlaceholders` enumerate the very same matches.

The scans that skip over a matched region are written with an explicit
fuel argument (`fuel ≥ length` always holds at the top-level entry points,
which pass the length of the list), so that every function is structurally
recursive and computes by `rfl`/`decide`.
-/

/-- Whitespace as matched by JavaScript `\s` and removed by `trim`
(ASCII whitespace, NBSP, the Unicode space block, line/paragraph
separators, narrow/ideographic spaces and the BOM). -/
def jsWhitespaceChars : List Char :=
  [' ', '\t', '\n', '\u000B', '\u000C', '\r', '\u00A0', '\u1680',
   '\u2000', '\u2001', '\u2002', '\u2003', '\u2004', '\u2005', '\u2006',
   '\u2007', '\u2008', '\u2009', '\u200A', '\u2028', '\u2029', '\u202F',
   '\u205F', '\u3000', '\uFEFF']

/-- Decide whether a character is JavaScript whitespace. -/
def isJsWs (c : Char) : Bool :=
  jsWhitespaceChars.contains c

/-- JavaScript `String.prototype.trim` on a character list: drop whitespace
from both ends. -/
def jsTrimList (l : List Char) : List Char :=
  ((l.dropWhile isJsWs).reverse.dropWhile isJsWs).reverse

/-- JavaScript `String.prototype.trim`. -/
def jsTrim (s : String) : String :=
  String.mk (jsTrimList s.data)

/-- The lowercase/uppercase pairs of the ASCII alphabet. -/
def azPairs : List (Char × Char) :=
  [('a', 'A'), ('b', 'B'), ('c', 'C'), ('d', 'D'), ('e', 'E'), ('f', 'F'),
   ('g', 'G'), ('h', 'H'), ('i', 'I'), ('j', 'J'), ('k', 'K'), ('l', 'L'),
   ('m', 'M'), ('n', 'N'), ('o', 'O'), ('p', 'P'), ('q', 'Q'), ('r', 'R'),
   ('s', 'S'), ('t', 'T'), ('u', 'U'), ('v', 'V'), ('w', 'W'), ('x', 'X'),
   ('y', 'Y'), ('z', 'Z')]

/-- The uppercase image of an ASCII lowercase letter, as produced by
JavaScript `toUpperCase()` on a character matched by `[a-z]`; any other
character is returned unchanged. -/
def upperAZ (c : Char) : Char :=
  (azPairs.lookup c).getD c

/-- The sentence-ending punctuation class `[.!?]` of the source. -/
def isSentencePunct (c : Char) : Bool :=
  c = '.' || c = '!' || c = '?'

/-- The punctuation class `[,.!?]` of the source's spacing fix. -/
def isSpacingPunct (c : Char) : Bool :=
  c = ',' || c = '.' || c = '!' || c = '?'

/-- The accented uppercase Vietnamese letters listed literally in the
source's character class (line 178), excluding the `A-Z` range which the
class also contains. -/
def vnUpperChars : List Char :=
  ['Á', 'À', 'Ả', 'Ã', 'Ạ', 'Ă', 'Ằ', 'Ắ', 'Ẳ', 'Ẵ', 'Ặ',
   'Â', 'Ầ', 'Ấ', 'Ẩ', 'Ẫ', 'Ậ', 'É', 'È', 'Ẻ', 'Ẽ', 'Ẹ',
   'Ê', 'Ề', 'Ế', 'Ể', 'Ễ', 'Ệ', 'Í', 'Ì', 'Ỉ', 'Ĩ', 'Ị',
   'Ó', 'Ò', 'Ỏ', 'Õ', 'Ọ', 'Ô', 'Ồ', 'Ố', 'Ổ', 'Ỗ', 'Ộ',
   'Ơ', 'Ờ', 'Ớ', 'Ở', 'Ỡ', 'Ợ', 'Ú', 'Ù', 'Ủ', 'Ũ', 'Ụ',
   'Ư', 'Ừ', 'Ứ', 'Ử', 'Ữ', 'Ự', 'Ý', 'Ỳ', 'Ỷ', 'Ỹ', 'Ỵ', 'Đ']

/-- The character class `[A-ZÁÀ...Đ]` of the source: an ASCII uppercase
letter or an accented uppercase Vietnamese letter. -/
def isVnUpper (c : Char) : Bool :=
  ('A' ≤ c && c ≤ 'Z') || vnUpperChars.contains c

/-- Collapse runs of whitespace to a single space:
JavaScript `replace(/\s+/g, ' ')`.  Each maximal nonempty run of
whitespace characters becomes one `' '`. -/
def collapseWs : List Char → List Char
  | [] => []
  | c :: rest =>
    if isJsWs c then
      match rest with
      | r1 :: _ => if isJsWs r1 then collapseWs rest else ' ' :: collapseWs rest
      | [] => [' ']
    else c :: collapseWs rest

/-- The first (leftmost) match of `/([.!?])\s*$/`, replaced by the captured
punctuation mark: the result keeps everything before the match and drops the
trailing whitespace.  Returns `none` when the pattern does not match. -/
def ensureEndingAux : List Char → Option (List Char)
  | [] => none
  | c :: rest =>
    if isSentencePunct c && rest.all isJsWs then some [c]
    else (ensureEndingAux rest).map (c :: ·)

/-- JavaScript `replace(/([.!?])\s*$/, '$1')` (non-global: at most one
match, which must reach the end of the string). -/
def ensureEnding (l : List Char) : List Char :=
  (ensureEndingAux l).getD l

/-- JavaScript `replace(/^([a-z])/, m => m.toUpperCase())`: uppercase the
first character when it is an ASCII lowercase letter (`upperAZ` is the
identity elsewhere, matching the regex finding no match). -/
def capitalizeFirst : List Char → List Char
  | [] => []
  | c :: rest => upperAZ c :: rest

/-- JavaScript `replace(/\s+([,.!?])/g, '$1')`: delete every maximal
whitespace run that is immediately followed by a punctuation mark.
Processing the list from the right, a whitespace character is dropped
exactly when the already-processed remainder starts with a punctuation
mark, which happens exactly when the characters between it and the next
punctuation mark are all whitespace. -/
def stripWsBeforePunct : List Char → List Char
  | [] => []
  | c :: rest =>
    match stripWsBeforePunct rest with
    | [] => [c]
    | r1 :: rtl => if isJsWs c && isSpacingPunct r1 then r1 :: rtl else c :: r1 :: rtl

/-- JavaScript `replace(/([.!?])([A-ZÁ...Đ])/g, '$1 $2')`: insert a space
between a sentence-ending punctuation mark and an immediately following
uppercase (Vietnamese) letter; the scan resumes after the two matched
characters. -/
def spaceAfterSentencePunct : List Char → List Char
  | [] => []
  | [c] => [c]
  | c1 :: c2 :: rest =>
    if isSentencePunct c1 && isVnUpper c2 then c1 :: ' ' :: c2 :: spaceAfterSentencePunct rest
    else c1 :: spaceAfterSentencePunct (c2 :: rest)

/-- Language tag of a render context. -/
inductive LanguageTag where
  | vietnamese
  | english
deriving DecidableEq, Repr

/-- `ConsultationData`: an open mapping from field name to text value
(a JavaScript object used as a dictionary). -/
abbrev ConsultationData := List (String × String)

/-- JavaScript property read `obj[key]`: `none` models `undefined`. -/
def objGet {α : Type} : List (String × α) → String → Option α
  | [], _ => none
  | (k, v) :: rest, key => if k = key then some v else objGet rest key

/-- JavaScript property write `obj[key] = value`: overwrite the existing
entry or append a new one. -/
def objSet {α : Type} : List (String × α) → String → α → List (String × α)
  | [], key, value => [(key, value)]
  | (k, v) :: rest, key, value =>
    if k = key then (key, value) :: rest else (k, v) :: objSet rest key value

/-- The render context minus the consultation type
(`Omit<ConsultationContext, 'consultationType'>` of the source; the
optional display-only fields `categoryName`, `industryName`,
`customerName`, `customerContext` play no role in rendering and are
omitted). -/
structure BaseConsultationContext where
  productId : String
  productName : String
  consultationData : ConsultationData
  templates : List (String × String)
  language : LanguageTag

/-- `ConsultationContext` of the source. -/
structure ConsultationContext extends BaseConsultationContext where
  consultationType : String

/-- The metadata record of a rendered consultation.  The wall-clock
`renderTime` of the source is the only non-deterministic output and is
omitted from the embedding. -/
structure RenderMetadata where
  productId : String
  consultationType : String
  language : LanguageTag
deriving DecidableEq, Repr

/-- `RenderedConsultation` of the source. -/
structure RenderedConsultation where
  content : String
  templateUsed : String
  placeholders : List String
  metadata : RenderMetadata
deriving DecidableEq, Repr

/-- Result record of `validateTemplate`. -/
structure ValidationResult where
  isValid : Bool
  errors : List String
  warnings : List String
  placeholders : List String
deriving DecidableEq, Repr

/-- The character class `[^\x7d]` of both placeholder patterns: any
character other than a closing brace. -/
def isNotCloseBrace (c : Char) : Bool :=
  c != '\x7d'

/-- One segment of a template as cut up by a placeholder scan: either a
single literal character that the scan passed over, or the captured field
name of a placeholder match. -/
inductive TSeg where
  | lit (c : Char)
  | ph (name : String)
deriving DecidableEq, Repr

/-- Fueled scan for the global regex `/\x7b\x7b([^\x7d]+)\x7d\x7d/g`,
replacing every match by `f` applied to the captured field name.  At
`'{' :: '{' :: rest` the greedy `[^\x7d]+` is the maximal brace-free run
of `rest`; the match succeeds when that run (`takeWhile`) is nonempty and the next
two characters (the start of the `dropWhile` remainder) are closing
braces, and the scan resumes after the match (`drop 2` of the remainder);
otherwise the scan advances one character.  The fuel only has to dominate
the list length. -/
def replDoubleF (f : String → String) : Nat → List Char → List Char
  | _, [] => []
  | 0, l => l
  | _ + 1, [c] => [c]
  | fuel + 1, c1 :: c2 :: rest =>
    if c1 = '{' ∧ c2 = '{' ∧ rest.takeWhile isNotCloseBrace ≠ [] ∧
        (rest.dropWhile isNotCloseBrace).take 2 = ['}', '}'] then
      (f (String.mk (rest.takeWhile isNotCloseBrace))).data ++
        replDoubleF f fuel ((rest.dropWhile isNotCloseBrace).drop 2)
    else c1 :: replDoubleF f fuel (c2 :: rest)

/-- Segment decomposition performed by the double-brace scan: same
traversal as `replDoubleF`, recording literal characters and captured
names instead of substituting. -/
def doubleSegsF : Nat → List Char → List TSeg
  | _, [] => []
  | 0, l => l.map TSeg.lit
  | _ + 1, [c] => [TSeg.lit c]
  | fuel + 1, c1 :: c2 :: rest =>
    if c1 = '{' ∧ c2 = '{' ∧ rest.takeWhile isNotCloseBrace ≠ [] ∧
        (rest.dropWhile isNotCloseBrace).take 2 = ['}', '}'] then
      TSeg.ph (String.mk (rest.takeWhile isNotCloseBrace)) ::
        doubleSegsF fuel ((rest.dropWhile isNotCloseBrace).drop 2)
    else TSeg.lit c1 :: doubleSegsF fuel (c2 :: rest)

/-- Fueled scan for the global regex `/\x7b([^\x7d]+)\x7d/g`. -/
def replSingleF (f : String → String) : Nat → List Char → List Char
  | _, [] => []
  | 0, l => l
  | fuel + 1, c :: rest =>
    if c = '{' ∧ rest.takeWhile isNotCloseBrace ≠ [] ∧
        (rest.dropWhile isNotCloseBrace).take 1 = ['}'] then
      (f (String.mk (rest.takeWhile isNotCloseBrace))).data ++
        replSingleF f fuel ((rest.dropWhile isNotCloseBrace).drop 1)
    else c :: replSingleF f fuel rest

/-- Segment decomposition performed by the single-brace scan. -/
def singleSegsF : Nat → List Char → List TSeg
  | _, [] => []
  | 0, l => l.map TSeg.lit
  | fuel + 1, c :: rest =>
    if c = '{' ∧ rest.takeWhile isNotCloseBrace ≠ [] ∧
        (rest.dropWhile isNotCloseBrace).take 1 = ['}'] then
      TSeg.ph (String.mk (rest.takeWhile isNotCloseBrace)) ::
        singleSegsF fuel ((rest.dropWhile isNotCloseBrace).drop 1)
    else TSeg.lit c :: singleSegsF fuel rest

/-- JavaScript `s.replace(VIETNAMESE_PLACEHOLDER_PATTERN, (m, name) => f name)`. -/
def replaceDouble (f : String → String) (l : List Char) : List Char :=
  replDoubleF f l.length l

/-- JavaScript `s.replace(PLACEHOLDER_PATTERN, (m, name) => f name)`. -/
def replaceSingle (f : String → String) (l : List Char) : List Char :=
  replSingleF f l.length l

/-- Double-brace segment decomposition of a template. -/
def doubleSegs (l : List Char) : List TSeg :=
  doubleSegsF l.length l

/-- Single-brace segment decomposition of a template. -/
def singleSegs (l : List Char) : List TSeg :=
  singleSegsF l.length l

/-- Re-assemble a segment, substituting `f` for placeholder segments. -/
def renderSeg (f : String → String) : TSeg → List Char
  | TSeg.lit c => [c]
  | TSeg.ph name => (f name).data

/-- Re-assemble a segment list, substituting `f` for every placeholder. -/
def renderSegs (f : String → String) (segs : List TSeg) : List Char :=
  (segs.map (renderSeg f)).flatten

/-- The captured field name of a placeholder segment. -/
def segName : TSeg → Option String
  | TSeg.ph name => some name
  | TSeg.lit _ => none

/-- The capture groups produced by the `exec` loop over the double-brace
pattern, in match order. -/
def doubleCaptures (l : List Char) : List String :=
  (doubleSegs l).filterMap segName

/-- The capture groups produced by the `exec` loop over the single-brace
pattern, in match order. -/
def singleCaptures (l : List Char) : List String :=
  (singleSegs l).filterMap segName

/-- Insertion into a JavaScript `Set` kept as a list in insertion order. -/
def setAdd (acc : List String) (x : String) : List String :=
  if x ∈ acc then acc else acc ++ [x]

/-- `extractPlaceholders` of the source: collect the trimmed capture of
every double-brace match, then of every single-brace match, into a `Set`,
and return it as a list (insertion order). -/
def extractPlaceholders (template : String) : List String :=
  ((doubleCaptures template.data).map jsTrim ++
    (singleCaptures template.data).map jsTrim).foldl setAdd []

/-- `formatVietnameseText` of the source: on the empty string return the
empty string; otherwise trim, collapse whitespace runs, keep a matched
sentence ending and capitalize an ASCII lowercase first letter.  The two
language branches of the source are textually identical. -/
def formatVietnameseText (text : String) (language : LanguageTag) : String :=
  if text = "" then ""
  else
    match language with
    | LanguageTag.vietnamese =>
      String.mk (capitalizeFirst (ensureEnding (collapseWs (jsTrimList text.data))))
    | LanguageTag.english =>
      String.mk (capitalizeFirst (ensureEnding (collapseWs (jsTrimList text.data))))

/-- `postProcessVietnameseText` of the source: in Vietnamese mode remove
whitespace before punctuation, put a space between sentence punctuation
and a following uppercase letter, collapse whitespace runs and trim; in
English mode only trim. -/
def postProcessVietnameseText (text : String) (language : LanguageTag) : String :=
  match language with
  | LanguageTag.vietnamese =>
    String.mk (jsTrimList (collapseWs (spaceAfterSentencePunct (stripWsBeforePunct text.data))))
  | LanguageTag.english => String.mk (jsTrimList text.data)

/-- `mergeTemplate` of the source: replace the double-brace placeholders
(unresolved or empty fields become `[Chưa có thông tin: name]`), then the
single-brace placeholders (unresolved or empty fields become
`[Missing: name]`), then post-process.  A field resolves when the object
lookup of the trimmed captured name yields a truthy (non-empty) string;
the marker embeds the untrimmed capture. -/
def mergeTemplate (template : String) (consultationData : ConsultationData)
    (language : LanguageTag) : String :=
  let afterDouble := replaceDouble (fun fieldName =>
    match objGet consultationData (jsTrim fieldName) with
    | some value =>
      if value = "" then "[Chưa có thông tin: " ++ fieldName ++ "]"
      else formatVietnameseText value language
    | none => "[Chưa có thông tin: " ++ fieldName ++ "]") template.data
  let afterSingle := replaceSingle (fun fieldName =>
    match objGet consultationData (jsTrim fieldName) with
    | some value =>
      if value = "" then "[Missing: " ++ fieldName ++ "]"
      else formatVietnameseText value language
    | none => "[Missing: " ++ fieldName ++ "]") afterDouble
  postProcessVietnameseText (String.mk afterSingle) language

/-- `render` of the source.  The only failure is the `Template not found`
throw, raised when the template for the requested consultation type is
absent or an empty (falsy) string. -/
def render (context : ConsultationContext) : Except String RenderedConsultation :=
  match objGet context.templates context.consultationType with
  | none =>
    Except.error ("Template not found for consultation type: " ++ context.consultationType)
  | some template =>
    if template = "" then
      Except.error ("Template not found for consultation type: " ++ context.consultationType)
    else
      Except.ok
        { content := mergeTemplate template context.consultationData context.language
          templateUsed := template
          placeholders := extractPlaceholders template
          metadata :=
            { productId := context.productId
              consultationType := context.consultationType
              language := context.language } }

/-- `generatePreview` of the source: the rendered content, or a warning
string wrapping the failure message. -/
def generatePreview (context : ConsultationContext) : String :=
  match render context with
  | Except.ok result => result.content
  | Except.error e => "⚠️ Lỗi template: " ++ e

/-- `validateTemplate` of the source. -/
def validateTemplate (template : String) (availableFields : List String) :
    ValidationResult :=
  let placeholders := extractPlaceholders template
  let openBraces := template.data.count '{'
  let closeBraces := template.data.count '}'
  let braceErrors :=
    if openBraces ≠ closeBraces then ["Template có cặp ngoặc nhọn không khớp"] else []
  let warnings := (placeholders.filter (fun p => ¬ availableFields.contains p)).map
    (fun p => "Trường '" ++ p ++ "' không có trong dữ liệu consultation")
  let emptyErrors := if jsTrim template = "" then ["Template không được để trống"] else []
  let errors := braceErrors ++ emptyErrors
  { isValid := errors.length = 0
    errors := errors
    warnings := warnings
    placeholders := placeholders }

/-- Extend a base context with a consultation type
(`{ ...baseContext, consultationType: type }` of the source). -/
def withType (base : BaseConsultationContext) (ty : String) : ConsultationContext :=
  { toBaseConsultationContext := base, consultationType := ty }

/-- The per-type body of `renderAll`: the successful render, or the
synthetic error result built in the `catch` branch. -/
def renderAllStep (base : BaseConsultationContext) (ty : String) : RenderedConsultation :=
  match render (withType base ty) with
  | Except.ok result => result
  | Except.error e =>
    { content := "Lỗi tạo nội dung tư vấn: " ++ e
      templateUsed := ""
      placeholders := []
      metadata :=
        { productId := base.productId
          consultationType := ty
          language := base.language } }

/-- `renderAll` of the source: iterate over the consultation types,
assigning each type's result (or synthetic error result) into the result
object. -/
def renderAll (base : BaseConsultationContext) (types : List String) :
    List (String × RenderedConsultation) :=
  types.foldl (fun results ty => objSet results ty (renderAllStep base ty)) []

/-! ### Specification-side definitions used to state the claims -/

/-- A string with no brace characters at all. -/
def braceFreeL (l : List Char) : Prop :=
  ∀ c ∈ l, c ≠ '\x7b' ∧ c ≠ '\x7d'

/-- A string with no brace characters at all. -/
def braceFree (s : String) : Prop :=
  braceFreeL s.data

instance (l : List Char) : Decidable (braceFreeL l) := by
  unfold braceFreeL
  infer_instance

instance (s : String) : Decidable (braceFree s) := by
  unfold braceFree
  infer_instance

/-- Build a template that consists solely of double-brace placeholders:
each part contributes its literal prefix followed by one placeholder, and
`tail` is the literal remainder.  This formalizes a "template containing
only double-brace placeholders" (the literal pieces and field names are
constrained to be brace-free where the property needs it). -/
def buildDouble : List (String × String) → String → String
  | [], tail => tail
  | (lit, nm) :: parts, tail =>
    lit ++ "\x7b\x7b" ++ nm ++ "\x7d\x7d" ++ buildDouble parts tail

/-- No two adjacent whitespace characters (the observable effect of
collapsing whitespace runs). -/
def noAdjWs : List Char → Bool
  | [] => true
  | [_] => true
  | a :: b :: rest => !(isJsWs a && isJsWs b) && noAdjWs (b :: rest)

/-- Lowercase/uppercase pairs of the accented Vietnamese alphabet. -/
def viLowerUpperPairs : List (Char × Char) :=
  [('à', 'À'), ('á', 'Á'), ('ả', 'Ả'), ('ã', 'Ã'), ('ạ', 'Ạ'),
   ('ă', 'Ă'), ('ằ', 'Ằ'), ('ắ', 'Ắ'), ('ẳ', 'Ẳ'), ('ẵ', 'Ẵ'), ('ặ', 'Ặ'),
   ('â', 'Â'), ('ầ', 'Ầ'), ('ấ', 'Ấ'), ('ẩ', 'Ẩ'), ('ẫ', 'Ẫ'), ('ậ', 'Ậ'),
   ('đ', 'Đ'), ('è', 'È'), ('é', 'É'), ('ẻ', 'Ẻ'), ('ẽ', 'Ẽ'), ('ẹ', 'Ẹ'),
   ('ê', 'Ê'), ('ề', 'Ề'), ('ế', 'Ế'), ('ể', 'Ể'), ('ễ', 'Ễ'), ('ệ', 'Ệ'),
   ('ì', 'Ì'), ('í', 'Í'), ('ỉ', 'Ỉ'), ('ĩ', 'Ĩ'), ('ị', 'Ị'),
   ('ò', 'Ò'), ('ó', 'Ó'), ('ỏ', 'Ỏ'), ('õ', 'Õ'), ('ọ', 'Ọ'),
   ('ô', 'Ô'), ('ồ', 'Ồ'), ('ố', 'Ố'), ('ổ', 'Ổ'), ('ỗ', 'Ỗ'), ('ộ', 'Ộ'),
   ('ơ', 'Ơ'), ('ờ', 'Ờ'), ('ớ', 'Ớ'), ('ở', 'Ở'), ('ỡ', 'Ỡ'), ('ợ', 'Ợ'),
   ('ù', 'Ù'), ('ú', 'Ú'), ('ủ', 'Ủ'), ('ũ', 'Ũ'), ('ụ', 'Ụ'),
   ('ư', 'Ư'), ('ừ', 'Ừ'), ('ứ', 'Ứ'), ('ử', 'Ử'), ('ữ', 'Ữ'), ('ự', 'Ự'),
   ('ỳ', 'Ỳ'), ('ý', 'Ý'), ('ỷ', 'Ỷ'), ('ỹ', 'Ỹ'), ('ỵ', 'Ỵ')]

/-- Specification-side capitalization, following the words of the spec,
"capitalize the first character": the Unicode simple uppercase mapping,
written out for ASCII and the Vietnamese alphabet (identity elsewhere).
This is deliberately NOT the transformation performed by the code; it is
used to state what the spec demands, for comparison with the ASCII-only
`upperAZ` of the code. -/
def specCapitalizeChar (c : Char) : Char :=
  match viLowerUpperPairs.lookup c with
  | some u => u
  | none => upperAZ c

/-! ### Basic facts about segment rendering -/

theorem renderSegs_nil (f : String → String) : renderSegs f [] = [] := rfl

theorem renderSegs_cons (f : String → String) (s : TSeg) (segs : List TSeg) :
    renderSegs f (s :: segs) = renderSeg f s ++ renderSegs f segs := by
  simp [renderSegs]

theorem renderSegs_map_lit (f : String → String) (l : List Char) :
    renderSegs f (l.map TSeg.lit) = l := by
  induction l with
  | nil => rfl
  | cons c rest ih => simp [renderSegs, renderSeg] at ih ⊢; exact ih

/-- The double-brace replacement scan substitutes exactly the placeholder
segments of the decomposition and copies every literal character. -/
theorem replDoubleF_eq_renderSegs (f : String → String) :
    ∀ fuel l, replDoubleF f fuel l = renderSegs f (doubleSegsF fuel l) := by
  intro fuel
  induction fuel with
  | zero =>
    intro l
    cases l with
    | nil => rfl
    | cons c rest =>
      show c :: rest = renderSegs f ((c :: rest).map TSeg.lit)
      rw [renderSegs_map_lit]
  | succ fuel ih =>
    intro l
    match l with
    | [] => rfl
    | [c] => simp [replDoubleF, doubleSegsF, renderSegs, renderSeg]
    | c1 :: c2 :: rest =>
      simp only [replDoubleF, doubleSegsF]
      split
      · simp [renderSegs_cons, renderSeg, ih]
      · simp [renderSegs_cons, renderSeg, ih]

/-- The single-brace replacement scan substitutes exactly the placeholder
segments of the decomposition and copies every literal character. -/
theorem replSingleF_eq_renderSegs (f : String → String) :
    ∀ fuel l, replSingleF f fuel l = renderSegs f (singleSegsF fuel l) := by
  intro fuel
  induction fuel with
  | zero =>
    intro l
    cases l with
    | nil => rfl
    | cons c rest =>
      show c :: rest = renderSegs f ((c :: rest).map TSeg.lit)
      rw [renderSegs_map_lit]
  | succ fuel ih =>
    intro l
    match l with
    | [] => rfl
    | c :: rest =>
      simp only [replSingleF, singleSegsF]
      split
      · simp [renderSegs_cons, renderSeg, ih]
      · simp [renderSegs_cons, renderSeg, ih]

theorem replaceDouble_eq_renderSegs (f : String → String) (l : List Char) :
    replaceDouble f l = renderSegs f (doubleSegs l) :=
  replDoubleF_eq_renderSegs f l.length l

theorem replaceSingle_eq_renderSegs (f : String → String) (l : List Char) :
    replaceSingle f l = renderSegs f (singleSegs l) :=
  replSingleF_eq_renderSegs f l.length l

/-! ### Shape facts about the brace scans -/

theorem isNotCloseBrace_iff (c : Char) : isNotCloseBrace c = true ↔ c ≠ '}' := by
  simp [isNotCloseBrace]

theorem dropWhile_ncb_shape (l : List Char) :
    l.dropWhile isNotCloseBrace = [] ∨ ∃ t, l.dropWhile isNotCloseBrace = '}' :: t := by
  induction l with
  | nil => exact Or.inl rfl
  | cons c rest ih =>
    by_cases h : c = '}'
    · subst h
      right
      exact ⟨rest, by simp [List.dropWhile_cons, isNotCloseBrace]⟩
    · simpa [List.dropWhile_cons, isNotCloseBrace, h] using ih

theorem takeWhile_ncb_append (nm l : List Char) (h : ∀ c ∈ nm, c ≠ '}') :
    (nm ++ '}' :: l).takeWhile isNotCloseBrace = nm := by
  induction nm with
  | nil => simp [List.takeWhile_cons, isNotCloseBrace]
  | cons c rest ih =>
    have hc : c ≠ '}' := h c (List.mem_cons_self c rest)
    simp only [List.cons_append, List.takeWhile_cons]
    simp [isNotCloseBrace, hc, ih (fun d hd => h d (List.mem_cons_of_mem c hd))]

theorem dropWhile_ncb_append (nm l : List Char) (h : ∀ c ∈ nm, c ≠ '}') :
    (nm ++ '}' :: l).dropWhile isNotCloseBrace = '}' :: l := by
  induction nm with
  | nil => simp [List.dropWhile_cons, isNotCloseBrace]
  | cons c rest ih =>
    have hc : c ≠ '}' := h c (List.mem_cons_self c rest)
    simp only [List.cons_append, List.dropWhile_cons]
    simp [isNotCloseBrace, hc, ih (fun d hd => h d (List.mem_cons_of_mem c hd))]

theorem length_dropWhile_le (p : Char → Bool) (l : List Char) :
    (l.dropWhile p).length ≤ l.length :=
  (List.dropWhile_sublist p).length_le


/-- The double-brace segment scan does not depend on the fuel, as long as
the fuel dominates the length of the list. -/
theorem doubleSegsF_congr : ∀ m n l, l.length ≤ m → l.length ≤ n →
    doubleSegsF m l = doubleSegsF n l := by
  intro m
  induction m with
  | zero =>
    intro n l hm _
    have hl : l = [] := List.length_eq_zero.mp (Nat.le_zero.mp hm)
    subst hl
    cases n <;> rfl
  | succ m ih =>
    intro n l hm hn
    cases l with
    | nil => cases n <;> rfl
    | cons c1 rest0 =>
      cases n with
      | zero => exact absurd hn (by simp)
      | succ n =>
        cases rest0 with
        | nil => rfl
        | cons c2 rest =>
          have hm3 : rest.length + 2 ≤ m + 1 := by simpa using hm
          have hn3 : rest.length + 2 ≤ n + 1 := by simpa using hn
          have hdrop : ((rest.dropWhile isNotCloseBrace).drop 2).length ≤ rest.length := by
            have h1 := length_dropWhile_le isNotCloseBrace rest
            have h2 := List.length_drop 2 (rest.dropWhile isNotCloseBrace)
            omega
          simp only [doubleSegsF]
          split
          · rw [ih n ((rest.dropWhile isNotCloseBrace).drop 2) (by omega) (by omega)]
          · rw [ih n (c2 :: rest) (by simp; omega) (by simp; omega)]

/-- The single-brace segment scan does not depend on the fuel, as long as
the fuel dominates the length of the list. -/
theorem singleSegsF_congr : ∀ m n l, l.length ≤ m → l.length ≤ n →
    singleSegsF m l = singleSegsF n l := by
  intro m
  induction m with
  | zero =>
    intro n l hm _
    have hl : l = [] := List.length_eq_zero.mp (Nat.le_zero.mp hm)
    subst hl
    cases n <;> rfl
  | succ m ih =>
    intro n l hm hn
    cases l with
    | nil => cases n <;> rfl
    | cons c rest =>
      cases n with
      | zero => exact absurd hn (by simp)
      | succ n =>
        have hm3 : rest.length + 1 ≤ m + 1 := by simpa using hm
        have hn3 : rest.length + 1 ≤ n + 1 := by simpa using hn
        have hdrop : ((rest.dropWhile isNotCloseBrace).drop 1).length ≤ rest.length := by
          have h1 := length_dropWhile_le isNotCloseBrace rest
          have h2 := List.length_drop 1 (rest.dropWhile isNotCloseBrace)
          omega
        simp only [singleSegsF]
        split
        · rw [ih n ((rest.dropWhile isNotCloseBrace).drop 1) (by omega) (by omega)]
        · rw [ih n rest (by omega) (by omega)]

/-! ### Step equations for the segment decompositions at their natural fuel -/

theorem doubleSegs_nil : doubleSegs [] = [] := rfl

theorem singleSegs_nil : singleSegs [] = [] := rfl

/-- A character that does not open a brace pair is passed over as a
literal by the double-brace scan. -/
theorem doubleSegs_cons_ne (c : Char) (l : List Char) (hc : c ≠ '{') :
    doubleSegs (c :: l) = TSeg.lit c :: doubleSegs l := by
  cases l with
  | nil => rfl
  | cons c2 rest =>
    show doubleSegsF (rest.length + 2) (c :: c2 :: rest) = _
    simp only [doubleSegsF]
    rw [if_neg (by simp [hc])]
    rfl

/-- A successful double-brace match at the head of the list: the captured
name is the nonempty brace-free run, and the scan continues after the
closing braces. -/
theorem doubleSegs_match (nm l : List Char) (hne : nm ≠ [])
    (hnm : ∀ c ∈ nm, c ≠ '}') :
    doubleSegs ('{' :: '{' :: (nm ++ '}' :: '}' :: l)) =
      TSeg.ph (String.mk nm) :: doubleSegs l := by
  have htw : (nm ++ '}' :: '}' :: l).takeWhile isNotCloseBrace = nm :=
    takeWhile_ncb_append nm ('}' :: l) hnm
  have hdw : (nm ++ '}' :: '}' :: l).dropWhile isNotCloseBrace = '}' :: '}' :: l :=
    dropWhile_ncb_append nm ('}' :: l) hnm
  show doubleSegsF (((nm ++ '}' :: '}' :: l).length + 1) + 1)
      ('{' :: '{' :: (nm ++ '}' :: '}' :: l)) = _
  simp only [doubleSegsF]
  rw [if_pos (by simp [htw, hdw, hne])]
  rw [htw, hdw]
  show TSeg.ph (String.mk nm) :: doubleSegsF ((nm ++ '}' :: '}' :: l).length + 1) l = _
  rw [doubleSegsF_congr ((nm ++ '}' :: '}' :: l).length + 1) l.length l (by simp; omega) le_rfl]
  rfl

/-- A character that does not open a placeholder is passed over as a
literal by the single-brace scan. -/
theorem singleSegs_cons_ne (c : Char) (l : List Char) (hc : c ≠ '{') :
    singleSegs (c :: l) = TSeg.lit c :: singleSegs l := by
  show singleSegsF (l.length + 1) (c :: l) = _
  simp only [singleSegsF]
  rw [if_neg (by simp [hc])]
  rfl

/-- A successful single-brace match at the head of the list. -/
theorem singleSegs_match (nm l : List Char) (hne : nm ≠ [])
    (hnm : ∀ c ∈ nm, c ≠ '}') :
    singleSegs ('{' :: (nm ++ '}' :: l)) = TSeg.ph (String.mk nm) :: singleSegs l := by
  have htw : (nm ++ '}' :: l).takeWhile isNotCloseBrace = nm :=
    takeWhile_ncb_append nm l hnm
  have hdw : (nm ++ '}' :: l).dropWhile isNotCloseBrace = '}' :: l :=
    dropWhile_ncb_append nm l hnm
  show singleSegsF ((nm ++ '}' :: l).length + 1) ('{' :: (nm ++ '}' :: l)) = _
  simp only [singleSegsF]
  rw [if_pos (by simp [htw, hdw, hne])]
  rw [htw, hdw]
  show TSeg.ph (String.mk nm) :: singleSegsF ((nm ++ '}' :: l).length) l = _
  rw [singleSegsF_congr ((nm ++ '}' :: l).length) l.length l (by simp; omega) le_rfl]
  rfl

/-! ### Unfolding equations for `render` -/

theorem render_of_none (ctx : ConsultationContext)
    (h : objGet ctx.templates ctx.consultationType = none) :
    render ctx =
      Except.error ("Template not found for consultation type: " ++ ctx.consultationType) := by
  unfold render
  rw [h]

theorem render_of_empty (ctx : ConsultationContext)
    (h : objGet ctx.templates ctx.consultationType = some "") :
    render ctx =
      Except.error ("Template not found for consultation type: " ++ ctx.consultationType) := by
  unfold render
  rw [h]
  exact if_pos rfl

theorem render_of_some (ctx : ConsultationContext) (tpl : String)
    (h : objGet ctx.templates ctx.consultationType = some tpl) (hne : tpl ≠ "") :
    render ctx = Except.ok
      { content := mergeTemplate tpl ctx.consultationData ctx.language
        templateUsed := tpl
        placeholders := extractPlaceholders tpl
        metadata :=
          { productId := ctx.productId
            consultationType := ctx.consultationType
            language := ctx.language } } := by
  unfold render
  rw [h]
  exact if_neg hne

/-! ### Set-insertion fold -/

theorem mem_foldl_setAdd (l : List String) (acc : List String) (x : String) :
    x ∈ l.foldl setAdd acc ↔ x ∈ acc ∨ x ∈ l := by
  induction l generalizing acc with
  | nil => simp
  | cons y rest ih =>
    rw [List.foldl_cons, ih]
    unfold setAdd
    by_cases h : y ∈ acc
    · rw [if_pos h]
      simp only [List.mem_cons]
      constructor
      · tauto
      · rintro (h1 | h1 | h1)
        · exact Or.inl h1
        · exact Or.inl (h1 ▸ h)
        · exact Or.inr h1
    · rw [if_neg h]
      simp only [List.mem_append, List.mem_singleton, List.mem_cons]
      tauto

theorem nodup_foldl_setAdd (l : List String) (acc : List String) (h : acc.Nodup) :
    (l.foldl setAdd acc).Nodup := by
  induction l generalizing acc with
  | nil => exact h
  | cons y rest ih =>
    rw [List.foldl_cons]
    apply ih
    unfold setAdd
    by_cases hy : y ∈ acc
    · rwa [if_pos hy]
    · rw [if_neg hy]
      simp [List.nodup_append, h, hy]

/-- C1: every placeholder of the template is substituted, never dropped:
the double-brace pass rewrites the template segment-by-segment, keeping
every literal character and replacing each captured field name either by
its formatted value (when the trimmed name resolves to a non-empty string
in the consultation data) or by the marker `[Chưa có thông tin: name]`;
the single-brace pass then does the same with the marker
`[Missing: name]`; post-processing is applied to the assembled result.
An empty-string field value takes the marker branch. -/
theorem mergeTemplate_never_drops_placeholders (t : String) (data : ConsultationData)
    (lang : LanguageTag) :
    mergeTemplate t data lang =
      postProcessVietnameseText (String.mk (renderSegs (fun fieldName =>
          match objGet data (jsTrim fieldName) with
          | some value =>
            if value = "" then "[Missing: " ++ fieldName ++ "]"
            else formatVietnameseText value lang
          | none => "[Missing: " ++ fieldName ++ "]")
        (singleSegs (renderSegs (fun fieldName =>
            match objGet data (jsTrim fieldName) with
            | some value =>
              if value = "" then "[Chưa có thông tin: " ++ fieldName ++ "]"
              else formatVietnameseText value lang
            | none => "[Chưa có thông tin: " ++ fieldName ++ "]")
          (doubleSegs t.data))))) lang := by
  simp only [mergeTemplate, replaceDouble_eq_renderSegs, replaceSingle_eq_renderSegs]

/-- C3: the placeholder list attached to a render (computed by
`extractPlaceholders`) contains no duplicates, and a name belongs to it
exactly when it is the trimmed capture of a double-brace or of a
single-brace placeholder match of the template, independent of the
consultation data; `render` computes it from the template it used. -/
theorem extractPlaceholders_dedup_complete (t : String) :
    (extractPlaceholders t).Nodup ∧
    (∀ nm, nm ∈ extractPlaceholders t ↔
      ((∃ raw ∈ doubleCaptures t.data, jsTrim raw = nm) ∨
       (∃ raw ∈ singleCaptures t.data, jsTrim raw = nm))) ∧
    (∀ ctx : ConsultationContext, ∀ r, render ctx = Except.ok r →
      r.placeholders = extractPlaceholders r.templateUsed) := by
  refine ⟨nodup_foldl_setAdd _ [] List.nodup_nil, ?_, ?_⟩
  · intro nm
    unfold extractPlaceholders
    rw [mem_foldl_setAdd]
    simp [List.mem_append, List.mem_map]
  · intro ctx r hr
    cases hE : objGet ctx.templates ctx.consultationType with
    | none => rw [render_of_none ctx hE] at hr; exact absurd hr (by simp)
    | some tpl =>
      by_cases htpl : tpl = ""
      · subst htpl
        rw [render_of_empty ctx hE] at hr
        exact absurd hr (by simp)
      · rw [render_of_some ctx tpl hE htpl] at hr
        cases hr
        rfl

/-! ### Object write/read lemmas and the batch renderer -/

theorem objGet_objSet_self {α : Type} (l : List (String × α)) (k : String) (v : α) :
    objGet (objSet l k v) k = some v := by
  induction l with
  | nil => simp [objSet, objGet]
  | cons p rest ih =>
    obtain ⟨k', v'⟩ := p
    by_cases h : k' = k
    · simp [objSet, objGet, h]
    · simp [objSet, objGet, h, ih]

theorem objGet_objSet_ne {α : Type} (l : List (String × α)) (k key : String) (v : α)
    (h : key ≠ k) :
    objGet (objSet l k v) key = objGet l key := by
  induction l with
  | nil => simp [objSet, objGet, Ne.symm h]
  | cons p rest ih =>
    obtain ⟨k', v'⟩ := p
    by_cases hk : k' = k
    · subst hk
      simp [objSet, objGet, Ne.symm h]
    · simp [objSet, objGet, hk, ih]

theorem objGet_renderAll_foldl (base : BaseConsultationContext) (types : List String)
    (acc : List (String × RenderedConsultation)) (ty : String) :
    objGet (types.foldl (fun results t => objSet results t (renderAllStep base t)) acc) ty =
      if ty ∈ types then some (renderAllStep base ty) else objGet acc ty := by
  induction types generalizing acc with
  | nil => simp
  | cons t rest ih =>
    rw [List.foldl_cons, ih]
    by_cases hmem : ty ∈ rest
    · simp [hmem, List.mem_cons]
    · by_cases hty : ty = t
      · subst hty
        simp [hmem, objGet_objSet_self, List.mem_cons]
      · simp [hmem, hty, objGet_objSet_ne acc t ty _ hty, List.mem_cons]

/-! ### Claim theorems -/

/-- C4: `render` fails exactly when the template for the consultation type
is absent (or empty, which the falsy check treats as absent), and the only
failure is the template-not-found error naming the consultation-type key;
`generatePreview` returns the rendered content on success, and on failure
a warning string that contains the failure message. -/
theorem render_template_not_found_iff (ctx : ConsultationContext) :
    (∀ e, render ctx = Except.error e →
        e = "Template not found for consultation type: " ++ ctx.consultationType) ∧
    ((∃ e, render ctx = Except.error e) ↔
      (objGet ctx.templates ctx.consultationType = none ∨
       objGet ctx.templates ctx.consultationType = some "")) ∧
    (∀ r, render ctx = Except.ok r → generatePreview ctx = r.content) ∧
    (∀ e, render ctx = Except.error e →
      generatePreview ctx = "⚠️ Lỗi template: " ++ e ∧
      e.data <:+: (generatePreview ctx).data) := by
  have hcases :
      (objGet ctx.templates ctx.consultationType = none ∨
        objGet ctx.templates ctx.consultationType = some "") ∨
      (∃ tpl, objGet ctx.templates ctx.consultationType = some tpl ∧ tpl ≠ "") := by
    cases h : objGet ctx.templates ctx.consultationType with
    | none => exact Or.inl (Or.inl rfl)
    | some tpl =>
      by_cases htpl : tpl = ""
      · exact Or.inl (Or.inr (htpl ▸ rfl))
      · exact Or.inr ⟨tpl, rfl, htpl⟩
  have herr : ∀ h : objGet ctx.templates ctx.consultationType = none ∨
      objGet ctx.templates ctx.consultationType = some "",
      render ctx =
        Except.error ("Template not found for consultation type: " ++ ctx.consultationType) := by
    rintro (h | h)
    · exact render_of_none ctx h
    · exact render_of_empty ctx h
  refine ⟨?_, ⟨?_, ?_⟩, ?_, ?_⟩
  · intro e he
    rcases hcases with h | ⟨tpl, h, htpl⟩
    · rw [herr h] at he
      exact (Except.error.injEq _ _).mp he.symm
    · rw [render_of_some ctx tpl h htpl] at he
      exact absurd he (by simp)
  · rintro ⟨e, he⟩
    rcases hcases with h | ⟨tpl, h, htpl⟩
    · exact h
    · rw [render_of_some ctx tpl h htpl] at he
      exact absurd he (by simp)
  · intro h
    exact ⟨_, herr h⟩
  · intro r hr
    unfold generatePreview
    rw [hr]
  · intro e he
    have : generatePreview ctx = "⚠️ Lỗi template: " ++ e := by
      unfold generatePreview
      rw [he]
    refine ⟨this, ?_⟩
    rw [this, String.data_append]
    exact ⟨"⚠️ Lỗi template: ".data, [], by simp⟩

/-- C4 witness: at a context whose template table does not contain the
requested type, the preview is the warning string wrapping the
template-not-found message. -/
theorem render_template_not_found_iff_witness :
    generatePreview (withType
        { productId := "p", productName := "P", consultationData := [],
          templates := [("usage_guide_template", "Nhãn")],
          language := LanguageTag.vietnamese } "safety_template") =
      "⚠️ Lỗi template: Template not found for consultation type: safety_template" :=
  ((render_template_not_found_iff (withType
      { productId := "p", productName := "P", consultationData := [],
        templates := [("usage_guide_template", "Nhãn")],
        language := LanguageTag.vietnamese } "safety_template")).2.2.2
    "Template not found for consultation type: safety_template" (by rfl)).1

/-- C10: a present-but-empty template string is treated by `render`
exactly like a missing one: the same template-not-found failure, equal to
the failure of any context whose table lacks the (same-named) type. -/
theorem render_empty_template_same_error (ctx ctx' : ConsultationContext)
    (h : objGet ctx.templates ctx.consultationType = some "")
    (h' : objGet ctx'.templates ctx'.consultationType = none)
    (hty : ctx.consultationType = ctx'.consultationType) :
    render ctx =
      Except.error ("Template not found for consultation type: " ++ ctx.consultationType) ∧
    render ctx = render ctx' := by
  refine ⟨render_of_empty ctx h, ?_⟩
  rw [render_of_empty ctx h, render_of_none ctx' h', hty]

/-- C10 witness: a context mapping the type to the empty string fails with
the template-not-found error, identically to a context missing the type. -/
theorem render_empty_template_same_error_witness :
    render (withType
        { productId := "p", productName := "P", consultationData := [],
          templates := [("care_template", "")],
          language := LanguageTag.english } "care_template") =
      Except.error "Template not found for consultation type: care_template" ∧
    render (withType
        { productId := "p", productName := "P", consultationData := [],
          templates := [("care_template", "")],
          language := LanguageTag.english } "care_template") =
      render (withType
        { productId := "q", productName := "Q", consultationData := [],
          templates := [], language := LanguageTag.english } "care_template") :=
  render_empty_template_same_error _ _ (by rfl) (by rfl) (by rfl)

/-- C5: rendering `Cách dùng: (double-brace cách_thoa).` with
`cách_thoa ↦ thoa đều` in Vietnamese mode yields exactly
`Cách dùng: Thoa đều.` — value capitalized, template period preserved,
no doubled period. -/
theorem render_usage_guide_example :
    (render (withType
        { productId := "p1", productName := "Kem",
          consultationData := [("cách_thoa", "thoa đều")],
          templates := [("usage_guide_template", "Cách dùng: \x7b\x7bcách_thoa\x7d\x7d.")],
          language := LanguageTag.vietnamese } "usage_guide_template")).map
      RenderedConsultation.content = Except.ok "Cách dùng: Thoa đều." := by
  rfl

/-- C3 witness: at a concrete template the placeholder list is
duplicate-free, and a successfully rendered result carries the placeholder
list of its template. -/
theorem extractPlaceholders_dedup_complete_witness :
    (extractPlaceholders "A \x7b\x7ba\x7d\x7d").Nodup ∧
    RenderedConsultation.placeholders
        { content := "A V", templateUsed := "A \x7b\x7ba\x7d\x7d",
          placeholders := ["a", "\x7ba"],
          metadata := { productId := "p", consultationType := "t1",
                        language := LanguageTag.vietnamese } } =
      extractPlaceholders (RenderedConsultation.templateUsed
        { content := "A V", templateUsed := "A \x7b\x7ba\x7d\x7d",
          placeholders := ["a", "\x7ba"],
          metadata := { productId := "p", consultationType := "t1",
                        language := LanguageTag.vietnamese } }) :=
  ⟨(extractPlaceholders_dedup_complete "A \x7b\x7ba\x7d\x7d").1,
   (extractPlaceholders_dedup_complete "A \x7b\x7ba\x7d\x7d").2.2
     (withType
       { productId := "p", productName := "P", consultationData := [("a", "V")],
         templates := [("t1", "A \x7b\x7ba\x7d\x7d")],
         language := LanguageTag.vietnamese } "t1")
     _ (by rfl)⟩

/-- C6: `validateTemplate` is valid exactly when its error list is empty,
which happens exactly when the brace counts agree and the template is not
blank; a brace-count mismatch and a blank template each contribute their
error; the warnings are exactly one message per extracted placeholder
missing from the available fields and never affect validity. -/
theorem validateTemplate_spec (t : String) (fs : List String) :
    ((validateTemplate t fs).isValid = true ↔ (validateTemplate t fs).errors = []) ∧
    ((validateTemplate t fs).isValid = true ↔
      (t.data.count '{' = t.data.count '}' ∧ jsTrim t ≠ "")) ∧
    (t.data.count '{' ≠ t.data.count '}' →
      "Template có cặp ngoặc nhọn không khớp" ∈ (validateTemplate t fs).errors) ∧
    (jsTrim t = "" → "Template không được để trống" ∈ (validateTemplate t fs).errors) ∧
    ((validateTemplate t fs).warnings =
      ((extractPlaceholders t).filter (fun p => ¬ fs.contains p)).map
        (fun p => "Trường '" ++ p ++ "' không có trong dữ liệu consultation")) := by
  unfold validateTemplate
  by_cases hbrace : t.data.count '{' = t.data.count '}' <;>
    by_cases hempty : jsTrim t = "" <;>
      simp [hbrace, hempty]

/-- C6 witness: the mismatched-brace template of the spec example is
rejected with a non-empty error list. -/
theorem validateTemplate_spec_witness :
    ((validateTemplate "\x7b\x7bten\x7d " []).isValid = true ↔
      (validateTemplate "\x7b\x7bten\x7d " []).errors = []) ∧
    "Template có cặp ngoặc nhọn không khớp" ∈ (validateTemplate "\x7b\x7bten\x7d " []).errors :=
  ⟨(validateTemplate_spec "\x7b\x7bten\x7d " []).1,
   (validateTemplate_spec "\x7b\x7bten\x7d " []).2.2.1 (by decide)⟩

/-- C7 counterexample: on `Xin chào (double-brace ten)` with no available
fields the warning list has two entries, not one — the single-brace
pattern also matches inside the double braces and contributes the spurious
name `\x7bten`. -/
theorem validateTemplate_example_two_warnings :
    (validateTemplate "Xin chào \x7b\x7bten\x7d\x7d" []).warnings.length = 2 ∧
    (validateTemplate "Xin chào \x7b\x7bten\x7d\x7d" []).warnings.length ≠ 1 := by
  decide

/-- C7 (amended): on `Xin chào (double-brace ten)` with no available
fields, validation succeeds with no errors and exactly two warnings, the
first referencing the field name `ten` and the second the spurious
single-brace capture `\x7bten`. -/
theorem validateTemplate_example_amended :
    (validateTemplate "Xin chào \x7b\x7bten\x7d\x7d" []).isValid = true ∧
    (validateTemplate "Xin chào \x7b\x7bten\x7d\x7d" []).errors = [] ∧
    (validateTemplate "Xin chào \x7b\x7bten\x7d\x7d" []).warnings =
      ["Trường 'ten' không có trong dữ liệu consultation",
       "Trường '\x7bten' không có trong dữ liệu consultation"] := by
  decide

/-- C8: `renderAll` produces exactly one entry per supplied consultation
type, each computed independently of the others: the entry is the normal
render result when `render` succeeds for that type, and otherwise a
synthetic result whose content is a non-empty error message, whose
template-used is empty and whose placeholder list is empty. -/
theorem renderAll_isolates_failures (base : BaseConsultationContext) (types : List String) :
    (∀ ty, objGet (renderAll base types) ty =
      if ty ∈ types then some (renderAllStep base ty) else none) ∧
    (∀ ty res, render (withType base ty) = Except.ok res → renderAllStep base ty = res) ∧
    (∀ ty e, render (withType base ty) = Except.error e →
      (renderAllStep base ty).content = "Lỗi tạo nội dung tư vấn: " ++ e ∧
      (renderAllStep base ty).content ≠ "" ∧
      (renderAllStep base ty).templateUsed = "" ∧
      (renderAllStep base ty).placeholders = []) := by
  refine ⟨?_, ?_, ?_⟩
  · intro ty
    unfold renderAll
    rw [objGet_renderAll_foldl base types [] ty]
    rfl
  · intro ty res hres
    unfold renderAllStep
    rw [hres]
  · intro ty e he
    unfold renderAllStep
    rw [he]
    refine ⟨rfl, ?_, rfl, rfl⟩
    intro hcontra
    have := congrArg String.data hcontra
    rw [String.data_append] at this
    simp at this

/-- C8 witness: with the middle of three types missing from the template
table, its entry exists and is the synthetic error result. -/
theorem renderAll_isolates_failures_witness :
    objGet (renderAll
        { productId := "p", productName := "P", consultationData := [("a", "V")],
          templates := [("t1", "Toa \x7b\x7ba\x7d\x7d"), ("t3", "C")],
          language := LanguageTag.vietnamese } ["t1", "t2", "t3"]) "t2" =
      some (renderAllStep
        { productId := "p", productName := "P", consultationData := [("a", "V")],
          templates := [("t1", "Toa \x7b\x7ba\x7d\x7d"), ("t3", "C")],
          language := LanguageTag.vietnamese } "t2") ∧
    (renderAllStep
        { productId := "p", productName := "P", consultationData := [("a", "V")],
          templates := [("t1", "Toa \x7b\x7ba\x7d\x7d"), ("t3", "C")],
          language := LanguageTag.vietnamese } "t2").content ≠ "" ∧
    (renderAllStep
        { productId := "p", productName := "P", consultationData := [("a", "V")],
          templates := [("t1", "Toa \x7b\x7ba\x7d\x7d"), ("t3", "C")],
          language := LanguageTag.vietnamese } "t2").templateUsed = "" ∧
    (renderAllStep
        { productId := "p", productName := "P", consultationData := [("a", "V")],
          templates := [("t1", "Toa \x7b\x7ba\x7d\x7d"), ("t3", "C")],
          language := LanguageTag.vietnamese } "t2").placeholders = [] := by
  have h := renderAll_isolates_failures
    { productId := "p", productName := "P", consultationData := [("a", "V")],
      templates := [("t1", "Toa \x7b\x7ba\x7d\x7d"), ("t3", "C")],
      language := LanguageTag.vietnamese } ["t1", "t2", "t3"]
  have h3 := h.2.2 "t2" "Template not found for consultation type: t2" (by rfl)
  refine ⟨?_, h3.2.1, h3.2.2.1, h3.2.2.2⟩
  rw [h.1 "t2"]
  simp

/-! ### Characters of the formatting pipeline -/

theorem mem_jsTrimList (l : List Char) (c : Char) (h : c ∈ jsTrimList l) : c ∈ l := by
  unfold jsTrimList at h
  rw [List.mem_reverse] at h
  have h1 := (List.dropWhile_sublist isJsWs).subset h
  rw [List.mem_reverse] at h1
  exact (List.dropWhile_sublist isJsWs).subset h1

theorem collapseWs_one (c : Char) : collapseWs [c] = if isJsWs c then [' '] else [c] := rfl

theorem collapseWs_two (c r1 : Char) (rest : List Char) :
    collapseWs (c :: r1 :: rest) =
      if isJsWs c then
        (if isJsWs r1 then collapseWs (r1 :: rest) else ' ' :: collapseWs (r1 :: rest))
      else c :: collapseWs (r1 :: rest) := rfl

theorem collapseWs_cons_not_ws (c : Char) (rest : List Char) (h : ¬ isJsWs c = true) :
    collapseWs (c :: rest) = c :: collapseWs rest := by
  cases rest with
  | nil => rw [collapseWs_one, if_neg h]; rfl
  | cons r1 tl => rw [collapseWs_two, if_neg h]

theorem mem_collapseWs (l : List Char) (c : Char) (h : c ∈ collapseWs l) :
    c ∈ l ∨ c = ' ' := by
  induction l using collapseWs.induct with
  | case1 => simp [collapseWs] at h
  | case2 d hd r1 tl hr1 ih =>
    rw [collapseWs_two, if_pos hd, if_pos hr1] at h
    rcases ih h with h1 | h1
    · exact Or.inl (List.mem_cons_of_mem d h1)
    · exact Or.inr h1
  | case3 d hd r1 tl hr1 ih =>
    rw [collapseWs_two, if_pos hd, if_neg hr1] at h
    rcases List.mem_cons.mp h with h1 | h1
    · exact Or.inr h1
    · rcases ih h1 with h2 | h2
      · exact Or.inl (List.mem_cons_of_mem d h2)
      · exact Or.inr h2
  | case4 d hd =>
    rw [collapseWs_one, if_pos hd] at h
    simp at h
    exact Or.inr h
  | case5 d rest hd ih =>
    rw [collapseWs_cons_not_ws d rest hd] at h
    rcases List.mem_cons.mp h with h1 | h1
    · exact Or.inl (h1 ▸ List.mem_cons_self d rest)
    · rcases ih h1 with h2 | h2
      · exact Or.inl (List.mem_cons_of_mem d h2)
      · exact Or.inr h2

theorem ensureEndingAux_subset (l r : List Char) (h : ensureEndingAux l = some r) :
    ∀ c ∈ r, c ∈ l := by
  induction l generalizing r with
  | nil => simp [ensureEndingAux] at h
  | cons d rest ih =>
    rw [ensureEndingAux] at h
    by_cases hd : isSentencePunct d && rest.all isJsWs
    · rw [if_pos hd] at h
      cases h
      intro c hc
      simp at hc
      exact hc ▸ List.mem_cons_self d rest
    · rw [if_neg hd] at h
      cases hE : ensureEndingAux rest with
      | none => rw [hE] at h; cases h
      | some r' =>
        rw [hE] at h
        cases h
        intro c hc
        rcases List.mem_cons.mp hc with h1 | h1
        · exact h1 ▸ List.mem_cons_self d rest
        · exact List.mem_cons_of_mem d (ih r' hE c h1)

theorem mem_ensureEnding (l : List Char) (c : Char) (h : c ∈ ensureEnding l) : c ∈ l := by
  unfold ensureEnding at h
  cases hE : ensureEndingAux l with
  | none => rw [hE] at h; exact h
  | some r => rw [hE] at h; exact ensureEndingAux_subset l r hE c h

theorem lookup_char_mem {l : List (Char × Char)} {k v : Char}
    (h : l.lookup k = some v) : (k, v) ∈ l := by
  induction l with
  | nil => simp [List.lookup] at h
  | cons p rest ih =>
    obtain ⟨k1, v1⟩ := p
    simp only [List.lookup] at h
    cases hbeq : k == k1 with
    | true =>
      rw [hbeq] at h
      simp at h
      have hk : k = k1 := eq_of_beq hbeq
      subst hk
      simp [h]
    | false =>
      rw [hbeq] at h
      exact List.mem_cons_of_mem _ (ih h)

theorem upperAZ_classify (c : Char) :
    upperAZ c = c ∨ upperAZ c ∈
      ['A', 'B', 'C', 'D', 'E', 'F', 'G', 'H', 'I', 'J', 'K', 'L', 'M',
       'N', 'O', 'P', 'Q', 'R', 'S', 'T', 'U', 'V', 'W', 'X', 'Y', 'Z'] := by
  unfold upperAZ
  cases h : azPairs.lookup c with
  | none => exact Or.inl rfl
  | some u =>
    right
    have hm := lookup_char_mem h
    have hall : ∀ p ∈ azPairs, p.2 ∈
        ['A', 'B', 'C', 'D', 'E', 'F', 'G', 'H', 'I', 'J', 'K', 'L', 'M',
         'N', 'O', 'P', 'Q', 'R', 'S', 'T', 'U', 'V', 'W', 'X', 'Y', 'Z'] := by decide
    simpa using hall _ hm

theorem upperAZ_ne_brace (c : Char) (h1 : c ≠ '\x7b') (h2 : c ≠ '\x7d') :
    upperAZ c ≠ '\x7b' ∧ upperAZ c ≠ '\x7d' := by
  rcases upperAZ_classify c with h | h
  · rw [h]; exact ⟨h1, h2⟩
  · have hall : ∀ d ∈ ['A', 'B', 'C', 'D', 'E', 'F', 'G', 'H', 'I', 'J', 'K', 'L', 'M',
        'N', 'O', 'P', 'Q', 'R', 'S', 'T', 'U', 'V', 'W', 'X', 'Y', 'Z'],
        d ≠ '\x7b' ∧ d ≠ '\x7d' := by decide
    exact hall _ h

theorem stripWsBeforePunct_cons (c : Char) (rest : List Char) :
    stripWsBeforePunct (c :: rest) =
      match stripWsBeforePunct rest with
      | [] => [c]
      | r1 :: rtl =>
        if isJsWs c && isSpacingPunct r1 then r1 :: rtl else c :: r1 :: rtl := rfl

theorem mem_stripWsBeforePunct (l : List Char) (c : Char) (h : c ∈ stripWsBeforePunct l) :
    c ∈ l := by
  induction l using stripWsBeforePunct.induct with
  | case1 => simp [stripWsBeforePunct] at h
  | case2 d rest hE ih =>
    simp only [stripWsBeforePunct_cons, hE] at h
    simp at h
    exact h ▸ List.mem_cons_self d rest
  | case3 d rest r1 rtl hE hcond ih =>
    simp only [stripWsBeforePunct_cons, hE] at h
    rw [if_pos hcond] at h
    rw [← hE] at h
    exact List.mem_cons_of_mem d (ih h)
  | case4 d rest r1 rtl hE hcond ih =>
    simp only [stripWsBeforePunct_cons, hE] at h
    rw [if_neg hcond] at h
    rcases List.mem_cons.mp h with h1 | h1
    · exact h1 ▸ List.mem_cons_self d rest
    · rw [← hE] at h1
      exact List.mem_cons_of_mem d (ih h1)

theorem spaceAfterSentencePunct_two (c1 c2 : Char) (rest : List Char) :
    spaceAfterSentencePunct (c1 :: c2 :: rest) =
      if isSentencePunct c1 && isVnUpper c2 then
        c1 :: ' ' :: c2 :: spaceAfterSentencePunct rest
      else c1 :: spaceAfterSentencePunct (c2 :: rest) := rfl

theorem mem_spaceAfterSentencePunct (l : List Char) (c : Char)
    (h : c ∈ spaceAfterSentencePunct l) : c ∈ l ∨ c = ' ' := by
  induction l using spaceAfterSentencePunct.induct with
  | case1 => simp [spaceAfterSentencePunct] at h
  | case2 d =>
    refine Or.inl ?_
    simpa [spaceAfterSentencePunct] using h
  | case3 c1 c2 rest hcond ih =>
    rw [spaceAfterSentencePunct_two, if_pos hcond] at h
    rcases List.mem_cons.mp h with h1 | h1
    · exact Or.inl (by simp [h1])
    · rcases List.mem_cons.mp h1 with h2 | h2
      · exact Or.inr h2
      · rcases List.mem_cons.mp h2 with h3 | h3
        · exact Or.inl (by simp [h3])
        · rcases ih h3 with h4 | h4
          · exact Or.inl (by simp [h4])
          · exact Or.inr h4
  | case4 c1 c2 rest hcond ih =>
    rw [spaceAfterSentencePunct_two, if_neg hcond] at h
    rcases List.mem_cons.mp h with h1 | h1
    · exact Or.inl (by simp [h1])
    · rcases ih h1 with h2 | h2
      · exact Or.inl (by simp [List.mem_cons.mp h2])
      · exact Or.inr h2

/-! ### Brace-free strings and the all-double-brace normal form -/

theorem mem_renderSegs (f : String → String) (segs : List TSeg) (c : Char) :
    c ∈ renderSegs f segs ↔ ∃ s ∈ segs, c ∈ renderSeg f s := by
  simp [renderSegs, List.mem_flatten]

theorem doubleSegs_all_lit (l : List Char) (h : ∀ c ∈ l, c ≠ '\x7b') :
    doubleSegs l = l.map TSeg.lit := by
  induction l with
  | nil => rfl
  | cons c rest ih =>
    rw [doubleSegs_cons_ne c rest (h c (List.mem_cons_self c rest))]
    rw [ih (fun d hd => h d (List.mem_cons_of_mem c hd))]
    rfl

theorem singleSegs_all_lit (l : List Char) (h : ∀ c ∈ l, c ≠ '\x7b') :
    singleSegs l = l.map TSeg.lit := by
  induction l with
  | nil => rfl
  | cons c rest ih =>
    rw [singleSegs_cons_ne c rest (h c (List.mem_cons_self c rest))]
    rw [ih (fun d hd => h d (List.mem_cons_of_mem c hd))]
    rfl

theorem replaceSingle_id_of_no_open (f : String → String) (l : List Char)
    (h : ∀ c ∈ l, c ≠ '\x7b') : replaceSingle f l = l := by
  rw [replaceSingle_eq_renderSegs, singleSegs_all_lit l h, renderSegs_map_lit]

theorem doubleSegs_append_lit (lit l : List Char) (h : ∀ c ∈ lit, c ≠ '\x7b') :
    doubleSegs (lit ++ l) = lit.map TSeg.lit ++ doubleSegs l := by
  induction lit with
  | nil => simp
  | cons c rest ih =>
    rw [List.cons_append, doubleSegs_cons_ne c _ (h c (List.mem_cons_self c rest))]
    rw [ih (fun d hd => h d (List.mem_cons_of_mem c hd))]
    rfl

/-- Decomposition of an all-double-brace template: each part contributes
its literal characters and one placeholder segment carrying its field
name; the tail contributes literal characters. -/
theorem doubleSegs_buildDouble (parts : List (String × String)) (tail : String)
    (hparts : ∀ p ∈ parts, braceFree p.1 ∧ p.2 ≠ "" ∧ braceFree p.2)
    (htail : braceFree tail) :
    doubleSegs (buildDouble parts tail).data =
      (parts.map (fun p => p.1.data.map TSeg.lit ++ [TSeg.ph p.2])).flatten ++
        tail.data.map TSeg.lit := by
  induction parts with
  | nil =>
    simp only [buildDouble, List.map_nil, List.flatten_nil, List.nil_append]
    exact doubleSegs_all_lit tail.data (fun c hc => (htail c hc).1)
  | cons p parts ih =>
    obtain ⟨lit, nm⟩ := p
    obtain ⟨hlit, hnm_ne, hnm_bf⟩ := hparts (lit, nm) (List.mem_cons_self _ _)
    have hdata : (buildDouble ((lit, nm) :: parts) tail).data =
        lit.data ++ ('\x7b' :: '\x7b' ::
          (nm.data ++ '\x7d' :: '\x7d' :: (buildDouble parts tail).data)) := by
      show (lit ++ "\x7b\x7b" ++ nm ++ "\x7d\x7d" ++ buildDouble parts tail).data = _
      simp [String.data_append]
    rw [hdata]
    rw [doubleSegs_append_lit lit.data _ (fun c hc => (hlit c hc).1)]
    rw [doubleSegs_match nm.data (buildDouble parts tail).data
      (fun hc => hnm_ne (congrArg String.mk hc))
      (fun c hc => (hnm_bf c hc).2)]
    rw [ih (fun q hq => hparts q (List.mem_cons_of_mem _ hq))]
    have hmk : String.mk nm.data = nm := rfl
    rw [hmk]
    simp

/-- Formatting preserves brace-freeness of a field value. -/
theorem formatVietnameseText_braceFree (v : String) (lang : LanguageTag)
    (h : braceFree v) : braceFreeL (formatVietnameseText v lang).data := by
  by_cases hv : v = ""
  · subst hv
    intro c hc
    simp [formatVietnameseText] at hc
  · have hchain : braceFreeL (ensureEnding (collapseWs (jsTrimList v.data))) := by
      intro c hc
      have h1 := mem_ensureEnding _ c hc
      rcases mem_collapseWs _ c h1 with h2 | h2
      · exact h c (mem_jsTrimList _ c h2)
      · subst h2; exact ⟨by decide, by decide⟩
    have hcap : braceFreeL (capitalizeFirst (ensureEnding (collapseWs (jsTrimList v.data)))) := by
      cases hE : ensureEnding (collapseWs (jsTrimList v.data)) with
      | nil => intro c hc; simp [capitalizeFirst] at hc
      | cons d rest =>
        intro c hc
        rw [capitalizeFirst] at hc
        rcases List.mem_cons.mp hc with h1 | h1
        · have hd := hchain d (hE ▸ List.mem_cons_self d rest)
          exact h1 ▸ upperAZ_ne_brace d hd.1 hd.2
        · exact hchain c (hE ▸ List.mem_cons_of_mem d h1)
    unfold formatVietnameseText
    rw [if_neg hv]
    cases lang <;> exact hcap

/-- Vietnamese post-processing preserves brace-freeness. -/
theorem postProcess_braceFree (l : List Char) (lang : LanguageTag)
    (h : braceFreeL l) :
    braceFreeL (postProcessVietnameseText (String.mk l) lang).data := by
  cases lang with
  | vietnamese =>
    intro c hc
    have h1 := mem_jsTrimList _ c hc
    rcases mem_collapseWs _ c h1 with h2 | h2
    · rcases mem_spaceAfterSentencePunct _ c h2 with h3 | h3
      · exact h c (mem_stripWsBeforePunct _ c h3)
      · subst h3; exact ⟨by decide, by decide⟩
    · subst h2; exact ⟨by decide, by decide⟩
  | english =>
    intro c hc
    exact h c (mem_jsTrimList _ c hc)

/-- C2 (amended): for a template consisting solely of double-brace
placeholders (brace-free literal pieces around brace-free nonempty field
names), all of whose placeholders resolve to non-empty brace-free values,
the rendered content contains no brace at all — in particular no literal
double braces of either kind. -/
theorem render_all_double_resolvable_no_braces (ctx : ConsultationContext)
    (parts : List (String × String)) (tail : String)
    (htempl : objGet ctx.templates ctx.consultationType = some (buildDouble parts tail))
    (hparts : ∀ p ∈ parts, braceFree p.1 ∧ p.2 ≠ "" ∧ braceFree p.2)
    (htail : braceFree tail)
    (hres : ∀ p ∈ parts, ∃ v, objGet ctx.consultationData (jsTrim p.2) = some v ∧
      v ≠ "" ∧ braceFree v)
    (r : RenderedConsultation) (hr : render ctx = Except.ok r) :
    braceFree r.content ∧
    ¬ ("\x7b\x7b".data <:+: r.content.data) ∧
    ¬ ("\x7d\x7d".data <:+: r.content.data) := by
  by_cases hne : buildDouble parts tail = ""
  · rw [render_of_empty ctx (hne ▸ htempl)] at hr
    cases hr
  · rw [render_of_some ctx _ htempl hne] at hr
    cases hr
    have h1 : braceFreeL (replaceDouble (fun fieldName =>
        match objGet ctx.consultationData (jsTrim fieldName) with
        | some value =>
          if value = "" then "[Chưa có thông tin: " ++ fieldName ++ "]"
          else formatVietnameseText value ctx.language
        | none => "[Chưa có thông tin: " ++ fieldName ++ "]")
        (buildDouble parts tail).data) := by
      rw [replaceDouble_eq_renderSegs, doubleSegs_buildDouble parts tail hparts htail]
      intro c hc
      rcases (mem_renderSegs _ _ c).mp hc with ⟨s, hs, hcs⟩
      rcases List.mem_append.mp hs with hs1 | hs1
      · rcases List.mem_flatten.mp hs1 with ⟨chunk, hchunk, hschunk⟩
        rcases List.mem_map.mp hchunk with ⟨p, hp, hpchunk⟩
        subst hpchunk
        rcases List.mem_append.mp hschunk with hs2 | hs2
        · rcases List.mem_map.mp hs2 with ⟨d, hd, hds⟩
          subst hds
          simp only [renderSeg, List.mem_singleton] at hcs
          exact hcs ▸ (hparts p hp).1 d hd
        · rw [List.mem_singleton] at hs2
          subst hs2
          obtain ⟨v, hv, hvne, hvbf⟩ := hres p hp
          simp only [renderSeg, hv, if_neg hvne] at hcs
          exact formatVietnameseText_braceFree v ctx.language hvbf c hcs
      · rcases List.mem_map.mp hs1 with ⟨d, hd, hds⟩
        subst hds
        simp only [renderSeg, List.mem_singleton] at hcs
        exact hcs ▸ htail d hd
    have hcontent : braceFreeL (mergeTemplate (buildDouble parts tail)
        ctx.consultationData ctx.language).data := by
      simp only [mergeTemplate]
      rw [replaceSingle_id_of_no_open _ _ (fun c hc => (h1 c hc).1)]
      exact postProcess_braceFree _ _ h1
    refine ⟨hcontent, ?_, ?_⟩
    · intro hinf
      have hmem : '\x7b' ∈ (mergeTemplate (buildDouble parts tail)
          ctx.consultationData ctx.language).data := hinf.subset (by decide)
      exact (hcontent _ hmem).1 rfl
    · intro hinf
      have hmem : '\x7d' ∈ (mergeTemplate (buildDouble parts tail)
          ctx.consultationData ctx.language).data := hinf.subset (by decide)
      exact (hcontent _ hmem).2 rfl

/-- C2 counterexample: a template that is exactly one double-brace
placeholder, resolvable to the non-empty value consisting of two open
braces, renders to content that contains the literal substring of two
open braces. -/
theorem render_resolvable_braces_counterexample :
    buildDouble [("", "a")] "" = "\x7b\x7ba\x7d\x7d" ∧
    objGet [("a", "\x7b\x7b")] (jsTrim "a") = some "\x7b\x7b" ∧
    ("\x7b\x7b" : String) ≠ "" ∧
    (render (withType
        { productId := "p", productName := "P",
          consultationData := [("a", "\x7b\x7b")],
          templates := [("t1", "\x7b\x7ba\x7d\x7d")],
          language := LanguageTag.vietnamese } "t1")).map
      RenderedConsultation.content = Except.ok "\x7b\x7b" ∧
    "\x7b\x7b".data <:+: ("\x7b\x7b" : String).data := by
  refine ⟨rfl, rfl, by decide, rfl, ⟨[], [], by simp⟩⟩

/-- C2 (amended) witness: a concrete all-double-brace template with a
brace-free resolvable value renders without any brace in the content. -/
theorem render_all_double_resolvable_no_braces_witness :
    braceFree "Xin Nam!" ∧
    ¬ ("\x7b\x7b".data <:+: ("Xin Nam!" : String).data) ∧
    ¬ ("\x7d\x7d".data <:+: ("Xin Nam!" : String).data) := by
  have h := render_all_double_resolvable_no_braces
    (withType
      { productId := "p", productName := "P",
        consultationData := [("ten", "nam")],
        templates := [("t1", "Xin \x7b\x7bten\x7d\x7d!")],
        language := LanguageTag.vietnamese } "t1")
    [("Xin ", "ten")] "!"
    (by rfl)
    (by
      intro p hp
      simp only [List.mem_singleton] at hp
      subst hp
      exact ⟨by decide, by decide, by decide⟩)
    (by decide)
    (by
      intro p hp
      simp only [List.mem_singleton] at hp
      subst hp
      exact ⟨"nam", rfl, by decide, by decide⟩)
    { content := "Xin Nam!", templateUsed := "Xin \x7b\x7bten\x7d\x7d!",
      placeholders := ["ten", "\x7bten"],
      metadata := { productId := "p", consultationType := "t1",
                    language := LanguageTag.vietnamese } }
    (by rfl)
  exact h

/-! ### Heads, ends and whitespace through the formatting pipeline -/

theorem head_dropWhile_not (p : Char → Bool) (l : List Char) (c : Char)
    (h : (l.dropWhile p).head? = some c) : p c = false := by
  induction l with
  | nil => simp at h
  | cons d rest ih =>
    rw [List.dropWhile_cons] at h
    by_cases hd : p d
    · rw [if_pos hd] at h
      exact ih h
    · rw [if_neg hd] at h
      simp at h
      subst h
      cases hpd : p d with
      | false => rfl
      | true => exact absurd hpd hd

theorem jsTrimList_getLast_not_ws (l : List Char) (c : Char)
    (h : (jsTrimList l).getLast? = some c) : isJsWs c = false := by
  unfold jsTrimList at h
  rw [List.getLast?_reverse] at h
  exact head_dropWhile_not isJsWs _ c h

theorem jsTrimList_head_not_ws (l : List Char) (c : Char)
    (h : (jsTrimList l).head? = some c) : isJsWs c = false := by
  unfold jsTrimList at h
  have hsuff : (l.dropWhile isJsWs).reverse.dropWhile isJsWs <:+ (l.dropWhile isJsWs).reverse :=
    List.dropWhile_suffix isJsWs
  have hpre : ((l.dropWhile isJsWs).reverse.dropWhile isJsWs).reverse <+: l.dropWhile isJsWs := by
    simpa using List.reverse_prefix.mpr hsuff
  obtain ⟨t, ht⟩ := hpre
  have hhead : (l.dropWhile isJsWs).head? = some c := by
    rw [← ht, List.head?_append, h]
    rfl
  exact head_dropWhile_not isJsWs l c hhead

theorem getLast?_cons_of_ne_nil (a : Char) (l : List Char) (h : l ≠ []) :
    (a :: l).getLast? = l.getLast? := by
  cases l with
  | nil => exact absurd rfl h
  | cons b t => exact List.getLast?_cons_cons

theorem collapseWs_ne_nil (l : List Char) (h : l ≠ []) : collapseWs l ≠ [] := by
  induction l using collapseWs.induct with
  | case1 => exact absurd rfl h
  | case2 d hd r1 tl hr1 ih =>
    rw [collapseWs_two, if_pos hd, if_pos hr1]
    exact ih (by simp)
  | case3 d hd r1 tl hr1 ih =>
    rw [collapseWs_two, if_pos hd, if_neg hr1]
    simp
  | case4 d hd =>
    rw [collapseWs_one, if_pos hd]
    simp
  | case5 d rest hd ih =>
    rw [collapseWs_cons_not_ws d rest hd]
    simp

theorem collapseWs_getLast (l : List Char) (c : Char) (hc : isJsWs c = false)
    (h : l.getLast? = some c) : (collapseWs l).getLast? = some c := by
  induction l using collapseWs.induct with
  | case1 => simp at h
  | case2 d hd r1 tl hr1 ih =>
    rw [collapseWs_two, if_pos hd, if_pos hr1]
    rw [List.getLast?_cons_cons] at h
    exact ih h
  | case3 d hd r1 tl hr1 ih =>
    rw [collapseWs_two, if_pos hd, if_neg hr1]
    rw [List.getLast?_cons_cons] at h
    rw [getLast?_cons_of_ne_nil ' ' _ (collapseWs_ne_nil _ (by simp))]
    exact ih h
  | case4 d hd =>
    simp at h
    subst h
    rw [hd] at hc
    cases hc
  | case5 d rest hd ih =>
    rw [collapseWs_cons_not_ws d rest hd]
    cases hrest : rest with
    | nil =>
      subst hrest
      simp at h
      subst h
      rfl
    | cons r t =>
      subst hrest
      rw [List.getLast?_cons_cons] at h
      rw [getLast?_cons_of_ne_nil d _ (collapseWs_ne_nil _ (by simp))]
      exact ih h

theorem collapseWs_head (l : List Char) (c : Char) (hc : isJsWs c = false)
    (h : l.head? = some c) : (collapseWs l).head? = some c := by
  cases l with
  | nil => simp at h
  | cons d rest =>
    have hd : d = c := by simpa using h
    subst hd
    rw [collapseWs_cons_not_ws _ rest (by simp [hc])]
    rfl

theorem ws_collapseWs_space (l : List Char) (c : Char) (hc : c ∈ collapseWs l)
    (hws : isJsWs c = true) : c = ' ' := by
  induction l using collapseWs.induct with
  | case1 => simp [collapseWs] at hc
  | case2 d hd r1 tl hr1 ih =>
    rw [collapseWs_two, if_pos hd, if_pos hr1] at hc
    exact ih hc
  | case3 d hd r1 tl hr1 ih =>
    rw [collapseWs_two, if_pos hd, if_neg hr1] at hc
    rcases List.mem_cons.mp hc with h1 | h1
    · exact h1
    · exact ih h1
  | case4 d hd =>
    rw [collapseWs_one, if_pos hd] at hc
    simpa using hc
  | case5 d rest hd ih =>
    rw [collapseWs_cons_not_ws d rest hd] at hc
    rcases List.mem_cons.mp hc with h1 | h1
    · subst h1
      exact absurd hws hd
    · exact ih h1

theorem noAdjWs_two (a b : Char) (t : List Char) :
    noAdjWs (a :: b :: t) = (!(isJsWs a && isJsWs b) && noAdjWs (b :: t)) := rfl

theorem noAdjWs_cons_not_ws (a : Char) (l : List Char) (ha : isJsWs a = false)
    (h : noAdjWs l = true) : noAdjWs (a :: l) = true := by
  cases l with
  | nil => rfl
  | cons b t =>
    rw [noAdjWs_two, ha]
    simpa using h

theorem noAdjWs_collapseWs (l : List Char) : noAdjWs (collapseWs l) = true := by
  induction l using collapseWs.induct with
  | case1 => rfl
  | case2 d hd r1 tl hr1 ih =>
    rw [collapseWs_two, if_pos hd, if_pos hr1]
    exact ih
  | case3 d hd r1 tl hr1 ih =>
    rw [collapseWs_two, if_pos hd, if_neg hr1]
    rw [collapseWs_cons_not_ws r1 tl (by simpa using hr1)] at ih ⊢
    rw [noAdjWs_two]
    simp only [ih, Bool.and_true]
    simp [isJsWs, jsWhitespaceChars] at hr1 ⊢
    tauto
  | case4 d hd =>
    rw [collapseWs_one, if_pos hd]
    rfl
  | case5 d rest hd ih =>
    rw [collapseWs_cons_not_ws d rest hd]
    exact noAdjWs_cons_not_ws d _ (by simpa using hd) ih

/-- `upperAZ` maps a non-whitespace character to a non-whitespace
character (both the lowercase and the uppercase ASCII letters are
non-whitespace). -/
theorem isJsWs_upperAZ (d : Char) : isJsWs (upperAZ d) = isJsWs d := by
  unfold upperAZ
  cases h : azPairs.lookup d with
  | none => rfl
  | some u =>
    have hm := lookup_char_mem h
    have hall : ∀ p ∈ azPairs, isJsWs p.1 = false ∧ isJsWs p.2 = false := by decide
    have := hall _ hm
    simp only [Option.getD_some]
    rw [this.1, this.2]

theorem ensureEndingAux_of_last_not_ws (l : List Char)
    (h : ∀ c, l.getLast? = some c → isJsWs c = false) :
    ensureEndingAux l = none ∨ ensureEndingAux l = some l := by
  induction l with
  | nil => exact Or.inl rfl
  | cons d rest ih =>
    rw [ensureEndingAux]
    by_cases hcond : isSentencePunct d && rest.all isJsWs
    · rw [if_pos hcond]
      right
      cases hrest : rest with
      | nil => rfl
      | cons r t =>
        exfalso
        rw [Bool.and_eq_true] at hcond
        obtain ⟨hp, hall⟩ := hcond
        subst hrest
        obtain ⟨x, hx⟩ : ∃ x, (r :: t).getLast? = some x :=
          Option.isSome_iff_exists.mp rfl
        have hws : isJsWs x = true :=
          (List.all_eq_true.mp hall) x (List.mem_of_mem_getLast? hx)
        have hnws := h x (by rw [getLast?_cons_of_ne_nil d _ (by simp)]; exact hx)
        rw [hnws] at hws
        cases hws
    · rw [if_neg hcond]
      cases hrest : rest with
      | nil =>
        subst hrest
        left
        rfl
      | cons r t =>
        subst hrest
        rcases ih (fun c hc =>
            h c (by rw [getLast?_cons_of_ne_nil d _ (by simp)]; exact hc)) with h1 | h1
        · left
          rw [h1]
          rfl
        · right
          rw [h1]
          rfl

theorem ensureEnding_eq_self (l : List Char)
    (h : ∀ c, l.getLast? = some c → isJsWs c = false) : ensureEnding l = l := by
  unfold ensureEnding
  rcases ensureEndingAux_of_last_not_ws l h with h1 | h1 <;> rw [h1] <;> rfl

theorem capitalizeFirst_length (l : List Char) :
    (capitalizeFirst l).length = l.length := by
  cases l <;> rfl

theorem noAdjWs_capitalizeFirst (l : List Char) :
    noAdjWs (capitalizeFirst l) = noAdjWs l := by
  cases l with
  | nil => rfl
  | cons a t =>
    cases t with
    | nil => rfl
    | cons b t2 =>
      rw [capitalizeFirst, noAdjWs_two, noAdjWs_two, isJsWs_upperAZ]

theorem capitalizeFirst_getLast (l : List Char) (c : Char)
    (h : (capitalizeFirst l).getLast? = some c) :
    ∃ d, l.getLast? = some d ∧ (c = d ∨ c = upperAZ d) := by
  cases l with
  | nil => simp [capitalizeFirst] at h
  | cons a t =>
    cases t with
    | nil =>
      rw [capitalizeFirst] at h
      simp at h
      exact ⟨a, by simp, Or.inr h.symm⟩
    | cons b t2 =>
      rw [capitalizeFirst, List.getLast?_cons_cons] at h
      exact ⟨c, by rw [List.getLast?_cons_cons]; exact h, Or.inl rfl⟩

theorem upperAZ_sentencePunct (p : Char) (hp : isSentencePunct p = true) :
    upperAZ p = p := by
  have hcases : (p = '.' ∨ p = '!') ∨ p = '?' := by
    simpa [isSentencePunct] using hp
  rcases hcases with (h | h) | h <;> subst h <;> decide

theorem sentencePunct_not_ws (p : Char) (hp : isSentencePunct p = true) :
    isJsWs p = false := by
  have hcases : (p = '.' ∨ p = '!') ∨ p = '?' := by
    simpa [isSentencePunct] using hp
  rcases hcases with (h | h) | h <;> subst h <;> decide

/-- C9 (amended): on a non-empty value, per-value formatting equals
trim-then-collapse followed by capitalizing an ASCII lowercase first
letter (the terminal-punctuation step adds nothing when the value has
been trimmed — no duplication); consequently every whitespace character
of the result is a single space with no two adjacent, the result has no
leading or trailing whitespace, it has the same length as the cleaned
value, and a terminal sentence punctuation mark of the trimmed value
survives unchanged.  Capitalization applies only to ASCII `a-z`: an
accented Vietnamese initial is left unchanged. -/
theorem formatVietnameseText_spec (v : String) (lang : LanguageTag) (hv : v ≠ "") :
    (formatVietnameseText v lang).data =
      capitalizeFirst (collapseWs (jsTrimList v.data)) ∧
    (formatVietnameseText v lang).data.length =
      (collapseWs (jsTrimList v.data)).length ∧
    (∀ c ∈ (formatVietnameseText v lang).data, isJsWs c = true → c = ' ') ∧
    noAdjWs (formatVietnameseText v lang).data = true ∧
    (∀ c, (formatVietnameseText v lang).data.head? = some c → isJsWs c = false) ∧
    (∀ c, (formatVietnameseText v lang).data.getLast? = some c → isJsWs c = false) ∧
    (∀ p, (jsTrimList v.data).getLast? = some p → isSentencePunct p = true →
      (formatVietnameseText v lang).data.getLast? = some p) := by
  have hlast_s : ∀ c, (collapseWs (jsTrimList v.data)).getLast? = some c →
      isJsWs c = false := by
    intro c hc
    cases hJ : jsTrimList v.data with
    | nil =>
      rw [hJ] at hc
      simp [collapseWs] at hc
    | cons m mt =>
      obtain ⟨x, hx⟩ : ∃ x, (m :: mt).getLast? = some x := Option.isSome_iff_exists.mp rfl
      have hxw : isJsWs x = false := jsTrimList_getLast_not_ws v.data x (by rw [hJ]; exact hx)
      have hcoll := collapseWs_getLast (m :: mt) x hxw hx
      rw [hJ, hcoll] at hc
      have hxc : x = c := by simpa using hc
      exact hxc ▸ hxw
  have hA : (formatVietnameseText v lang).data =
      capitalizeFirst (collapseWs (jsTrimList v.data)) := by
    unfold formatVietnameseText
    rw [if_neg hv]
    cases lang <;>
      · show capitalizeFirst (ensureEnding (collapseWs (jsTrimList v.data))) = _
        rw [ensureEnding_eq_self _ hlast_s]
  refine ⟨hA, ?_, ?_, ?_, ?_, ?_, ?_⟩
  · rw [hA, capitalizeFirst_length]
  · intro c hc hws
    rw [hA] at hc
    cases hsl : collapseWs (jsTrimList v.data) with
    | nil =>
      rw [hsl] at hc
      simp [capitalizeFirst] at hc
    | cons a t =>
      rw [hsl, capitalizeFirst] at hc
      rcases List.mem_cons.mp hc with h1 | h1
      · subst h1
        rw [isJsWs_upperAZ] at hws
        have ha : a = ' ' :=
          ws_collapseWs_space _ a (by rw [hsl]; exact List.mem_cons_self a t) hws
        rw [ha]
        decide
      · exact ws_collapseWs_space _ c (by rw [hsl]; exact List.mem_cons_of_mem a h1) hws
  · rw [hA, noAdjWs_capitalizeFirst]
    exact noAdjWs_collapseWs _
  · intro c hcc
    rw [hA] at hcc
    cases hsl : collapseWs (jsTrimList v.data) with
    | nil =>
      rw [hsl] at hcc
      simp [capitalizeFirst] at hcc
    | cons a t =>
      rw [hsl, capitalizeFirst] at hcc
      have hac : upperAZ a = c := by simpa using hcc
      cases hJ : jsTrimList v.data with
      | nil =>
        rw [hJ] at hsl
        simp [collapseWs] at hsl
      | cons m mt =>
        have hmw : isJsWs m = false := jsTrimList_head_not_ws v.data m (by rw [hJ]; rfl)
        have hh := collapseWs_head (m :: mt) m hmw rfl
        rw [← hJ, hsl] at hh
        have ham : a = m := by simpa using hh
        rw [← hac, isJsWs_upperAZ, ham]
        exact hmw
  · intro c hcc
    rw [hA] at hcc
    obtain ⟨d, hd, hcd⟩ := capitalizeFirst_getLast _ c hcc
    have hdw : isJsWs d = false := hlast_s d hd
    rcases hcd with h1 | h1
    · exact h1 ▸ hdw
    · rw [h1, isJsWs_upperAZ]
      exact hdw
  · intro p hp hpunct
    have hpw : isJsWs p = false := sentencePunct_not_ws p hpunct
    have hsp : (collapseWs (jsTrimList v.data)).getLast? = some p :=
      collapseWs_getLast _ p hpw hp
    rw [hA]
    cases hsl : collapseWs (jsTrimList v.data) with
    | nil =>
      rw [hsl] at hsp
      simp at hsp
    | cons a t =>
      cases t with
      | nil =>
        rw [hsl] at hsp
        have hap : a = p := by simpa using hsp
        rw [hap]
        show [upperAZ p].getLast? = some p
        rw [upperAZ_sentencePunct p hpunct]
        rfl
      | cons b t2 =>
        show (upperAZ a :: b :: t2).getLast? = some p
        rw [List.getLast?_cons_cons]
        rw [hsl, List.getLast?_cons_cons] at hsp
        exact hsp

/-- C9 counterexample: the first character of a value beginning with the
Vietnamese letter đ is NOT capitalized — the output equals the input while
capitalization as the spec words it would produce Đ. -/
theorem formatVietnameseText_capitalize_counterexample :
    formatVietnameseText "đậm" LanguageTag.vietnamese = "đậm" ∧
    ("đậm" : String).data.head? = some 'đ' ∧
    specCapitalizeChar 'đ' = 'Đ' ∧
    ('đ' : Char) ≠ 'Đ' ∧
    (formatVietnameseText "đậm" LanguageTag.vietnamese).data.head? ≠
      some (specCapitalizeChar 'đ') := by
  decide

/-- C9 (amended) witness: at a concrete messy value the formatter output
equals capitalize-of-collapse-of-trim, keeps no adjacent whitespace and
preserves the terminal period. -/
theorem formatVietnameseText_spec_witness :
    (formatVietnameseText " thoa  đều ." LanguageTag.vietnamese).data =
      capitalizeFirst (collapseWs (jsTrimList " thoa  đều .".data)) ∧
    noAdjWs (formatVietnameseText " thoa  đều ." LanguageTag.vietnamese).data = true ∧
    (formatVietnameseText " thoa  đều ." LanguageTag.vietnamese).data.getLast? =
      some '.' :=
  have h := formatVietnameseText_spec " thoa  đều ." LanguageTag.vietnamese (by decide)
  ⟨h.1, h.2.2.2.1, h.2.2.2.2.2.2 '.' (by decide) (by decide)⟩
